import Mathlib

/-!
Verification development for the streaming tool-call parser and the
sequence-hook output processor of this repository.

The definitions below are a shallow embedding of the Python sources:
  * `vllm/v1/engine/streaming_tool_parser.py` (class `StreamingToolParser`)
  * `vllm/engine/output_processor/streaming_tool_parser.py`
  * `vllm/engine/output_processor/sequence_hook.py`
Python dictionaries are modelled as association lists (insertion ordered,
first key occurrence wins, assignment keeps position, new keys append at
the end), Python sets as duplicate-free lists grown by append, and Python
exceptions (assertion failures, uncaught `TypeError`) as an `Except` error
channel.
-/

namespace VllmStream

/-! ### Definitions: shallow embedding of the sources -/

/-- Lookup in a Python-style dict modelled as an association list. -/
def dictGet {K V : Type} [DecidableEq K] (d : List (K × V)) (k : K) : Option V :=
  match d with
  | [] => none
  | (k', v) :: rest => if k' = k then some v else dictGet rest k

/-- Assignment `d[k] = v`: replaces in place if the key exists, appends otherwise. -/
def dictSet {K V : Type} [DecidableEq K] (d : List (K × V)) (k : K) (v : V) :
    List (K × V) :=
  match d with
  | [] => [(k, v)]
  | (k', v') :: rest =>
      if k' = k then (k', v) :: rest else (k', v') :: dictSet rest k v

/-- Membership test `k in d`. -/
def dictContains {K V : Type} [DecidableEq K] (d : List (K × V)) (k : K) : Bool :=
  (dictGet d k).isSome

/-- The `if k not in d: d[k] = v` idiom used by the state initializers. -/
def dictSetDefault {K V : Type} [DecidableEq K] (d : List (K × V)) (k : K) (v : V) :
    List (K × V) :=
  if dictContains d k then d else dictSet d k v

/-- Fragment of a function call: optional name and optional arguments increment. -/
structure DeltaFunctionCall where
  name : Option String
  arguments : Option String
deriving DecidableEq, Repr

/-- One tool-call fragment of a `DeltaMessage`, addressed by `index`. -/
structure DeltaToolCall where
  index : Int
  id : Option String
  type : Option String
  function : Option DeltaFunctionCall
deriving DecidableEq, Repr

/-- A delta message; only its `tool_calls` list is read by the parser. -/
structure DeltaMessage where
  tool_calls : List DeltaToolCall
deriving DecidableEq, Repr

/-- A completed function call. -/
structure FunctionCall where
  name : String
  arguments : String
deriving DecidableEq, Repr

/-- A completed tool call as constructed by `get_tool_calls_from_deltas`. -/
structure ToolCall where
  id : String
  type : String
  function : FunctionCall
deriving DecidableEq, Repr

/-- The per-index accumulator dict created by `get_tool_calls_from_deltas`:
`{'id': None, 'type': None, 'function_name': None, 'arguments': "", 'brace_count': 0}`. -/
structure ToolState where
  id : Option String
  type : Option String
  function_name : Option String
  arguments : String
  brace_count : Int
deriving DecidableEq, Repr

/-- Fresh per-index state. -/
def initToolState : ToolState := ⟨none, none, none, "", 0⟩

/-- Per-character contribution to `brace_count`: `+1` for a left brace,
`-1` for a right brace, `0` otherwise. -/
def braceDelta (c : Char) : Int :=
  if c = '\x7b' then 1 else if c = '\x7d' then -1 else 0

/-- The incremental brace-count update loop
(`for char in new_args: ...`) over the newly appended characters only. -/
def updateBraceCount (n : Int) (cs : List Char) : Int :=
  cs.foldl (fun acc c => acc + braceDelta c) n

/-- Applying one `DeltaToolCall` fragment to its accumulator state: last
non-null write wins for `id`/`type`/`function_name`, arguments append, and
`brace_count` is updated incrementally over the new characters. -/
def applyToolCallDelta (state : ToolState) (tc : DeltaToolCall) : ToolState :=
  let s1 := match tc.id with
    | some i => { state with id := some i }
    | none => state
  let s2 := match tc.type with
    | some t => { s1 with type := some t }
    | none => s1
  match tc.function with
  | none => s2
  | some f =>
    let s3 := match f.name with
      | some n => { s2 with function_name := some n }
      | none => s2
    match f.arguments with
    | none => s3
    | some new_args =>
      { s3 with
        arguments := s3.arguments ++ new_args,
        brace_count := updateBraceCount s3.brace_count new_args.data }

/-- `arguments_complete`: brace count zero, arguments non-empty and holding
at least one left brace. -/
def argumentsComplete (state : ToolState) : Bool :=
  state.brace_count == 0 && state.arguments != "" &&
    state.arguments.data.contains '\x7b'

/-- The emission guard checked right after each fragment update. -/
def readyToEmit (yielded : List Int) (index : Int) (state : ToolState) : Bool :=
  !(yielded.contains index) && state.id.isSome && state.type.isSome &&
    state.function_name.isSome && argumentsComplete state

/-- Constructing the emitted `ToolCall` from a ready state. -/
def mkToolCall (state : ToolState) : ToolCall :=
  ⟨state.id.getD "", state.type.getD "",
   ⟨state.function_name.getD "", state.arguments⟩⟩

/-- One iteration of the `for tool_call in delta.tool_calls` loop:
lazily create the index state, apply the fragment, then immediately check
the emission guard, recording the index as yielded on emission.
The triple is (tool_state dict, yielded indices, calls emitted so far). -/
def deltaStep (acc : List (Int × ToolState) × List Int × List ToolCall)
    (tc : DeltaToolCall) : List (Int × ToolState) × List Int × List ToolCall :=
  let prev := (dictGet acc.1 tc.index).getD initToolState
  let st := applyToolCallDelta prev tc
  let ts' := dictSet acc.1 tc.index st
  if readyToEmit acc.2.1 tc.index st then
    (ts', acc.2.1 ++ [tc.index], acc.2.2 ++ [mkToolCall st])
  else
    (ts', acc.2.1, acc.2.2)

/-- `get_tool_calls_from_deltas` at per-request level: fold the loop body over
the batch and return `none` when no tool call completed. -/
def get_tool_calls_from_deltas (ts : List (Int × ToolState)) (yielded : List Int)
    (delta : DeltaMessage) :
    List (Int × ToolState) × List Int × Option (List ToolCall) :=
  let r := delta.tool_calls.foldl deltaStep (ts, yielded, [])
  (r.1, r.2.1, if r.2.2.isEmpty then none else some r.2.2)

/-- A whole session at per-request level: `get_tool_calls_from_deltas` called
once per fragment batch, threading the tool-state dict and yielded set. -/
def runBatches (ts : List (Int × ToolState)) (yielded : List Int)
    (batches : List DeltaMessage) : List (Int × ToolState) × List Int :=
  batches.foldl
    (fun acc d =>
      let r := get_tool_calls_from_deltas acc.1 acc.2 d
      (r.1, r.2.1))
    (ts, yielded)

/-- The argument text contributed by one fragment (empty when absent). -/
def argText (tc : DeltaToolCall) : String :=
  match tc.function with
  | some f => f.arguments.getD ""
  | none => ""

/-- Evolution of the tool-state dict alone under one fragment. -/
def tsStep (ts : List (Int × ToolState)) (tc : DeltaToolCall) :
    List (Int × ToolState) :=
  dictSet ts tc.index (applyToolCallDelta ((dictGet ts tc.index).getD initToolState) tc)

/-- Yielded-set evolution of one fragment. -/
def yStep (ts : List (Int × ToolState)) (y : List Int) (tc : DeltaToolCall) :
    List Int :=
  if readyToEmit y tc.index
      (applyToolCallDelta ((dictGet ts tc.index).getD initToolState) tc)
  then y ++ [tc.index] else y

/-- Calls emitted by one fragment. -/
def cStep (ts : List (Int × ToolState)) (y : List Int) (tc : DeltaToolCall) :
    List ToolCall :=
  if readyToEmit y tc.index
      (applyToolCallDelta ((dictGet ts tc.index).getD initToolState) tc)
  then [mkToolCall (applyToolCallDelta ((dictGet ts tc.index).getD initToolState) tc)]
  else []

/-- Concatenation of the argument texts of a fragment list. -/
def concatArgs (l : List DeltaToolCall) : String :=
  l.foldr (fun tc acc => argText tc ++ acc) ""

/-- The brace-balance invariant of the accumulated argument text. -/
def braceOK (st : ToolState) : Prop :=
  st.brace_count
    = (st.arguments.data.count '\x7b' : Int) - (st.arguments.data.count '\x7d' : Int)

/-- First-occurrence deduplication, for "the index order they were touched". -/
def dedupFirst : List Int → List Int
  | [] => []
  | x :: xs => x :: (dedupFirst xs).filter (fun z => z ≠ x)

/-- Modelled from the spec: the batch semantics the spec describes for
`ingest_fragments` — first apply all fragments of the batch to their
accumulator states, and only then re-check every touched index (in first-touch
order) against the emission predicate. This is the comparison point for the
behaviour of the code's `get_tool_calls_from_deltas`, which checks inside the
per-fragment loop instead. -/
def ingestFragmentsSpecStyle (ts : List (Int × ToolState)) (yielded : List Int)
    (delta : DeltaMessage) :
    List (Int × ToolState) × List Int × Option (List ToolCall) :=
  let ts' := delta.tool_calls.foldl tsStep ts
  let touched := dedupFirst (delta.tool_calls.map DeltaToolCall.index)
  let r := touched.foldl
    (fun acc i =>
      let st := (dictGet ts' i).getD initToolState
      if readyToEmit acc.1 i st then (acc.1 ++ [i], acc.2 ++ [mkToolCall st])
      else acc)
    (yielded, [])
  (ts', r.1, if r.2.isEmpty then none else some r.2)

/-- First fragment of the C3 scenario: completes index 0 on its own. -/
def cexFrag1 : DeltaToolCall :=
  ⟨0, some "x", some "function", some ⟨some "f", some "\x7b\x7d"⟩⟩

/-- Second fragment of the C3 scenario: appends trailing argument text to
index 0 within the same batch. -/
def cexFrag2 : DeltaToolCall := ⟨0, none, none, some ⟨none, some "!"⟩⟩

/-- The two-fragment batch used to separate per-fragment checking from the
spec's batch-then-check description. -/
def cexBatch : DeltaMessage := ⟨[cexFrag1, cexFrag2]⟩

/-- A V1 engine-core output as consumed by `update_from_engine_output`. -/
structure EngineCoreOutput where
  request_id : String
  new_token_ids : List Int
deriving DecidableEq, Repr

/-- Outcome of invoking the injected fragment extractor
(`tool_parser.extract_tool_calls_streaming`): either a (possibly absent)
delta message, or the `TypeError` raised when the extractor rejects the
calling convention (`request=None`). -/
inductive ExtractorResult where
  | ok : Option DeltaMessage → ExtractorResult
  | typeError : ExtractorResult
deriving DecidableEq, Repr

/-- The six-argument context handed to the fragment extractor. -/
structure ExtractArgs where
  previous_text : String
  current_text : String
  delta_text : String
  previous_token_ids : List Int
  current_token_ids : List Int
  delta_token_ids : List Int
deriving DecidableEq, Repr

/-- The five per-request state maps of the V1 `StreamingToolParser`. -/
structure ParserState where
  chunks_mapping : List (String × List DeltaMessage)
  tool_states : List (String × List (Int × ToolState))
  yielded_indices : List (String × List Int)
  accumulated_text : List (String × String)
  accumulated_token_ids : List (String × List Int)
deriving DecidableEq, Repr

/-- The freshly constructed parser. -/
def emptyParserState : ParserState := ⟨[], [], [], [], []⟩

/-- `_initialize_request_state`: insert empty defaults for maps that do not
know the request id yet. -/
def initialize_request_state (ps : ParserState) (request_id : String) :
    ParserState where
  chunks_mapping := dictSetDefault ps.chunks_mapping request_id []
  tool_states := dictSetDefault ps.tool_states request_id []
  yielded_indices := dictSetDefault ps.yielded_indices request_id []
  accumulated_text := dictSetDefault ps.accumulated_text request_id ""
  accumulated_token_ids := dictSetDefault ps.accumulated_token_ids request_id []

/-- The extractor context computed by `update_from_engine_output` for a
non-empty token batch. -/
def v1ExtractArgs (ps : ParserState) (eo : EngineCoreOutput)
    (dec : List Int → String) : ExtractArgs :=
  let ps' := initialize_request_state ps eo.request_id
  let delta_text := dec eo.new_token_ids
  let previous_text := (dictGet ps'.accumulated_text eo.request_id).getD ""
  let previous_token_ids := (dictGet ps'.accumulated_token_ids eo.request_id).getD []
  ⟨previous_text, previous_text ++ delta_text, delta_text,
   previous_token_ids, previous_token_ids ++ eo.new_token_ids, eo.new_token_ids⟩

/-- `update_from_engine_output`: initialize request state, return `none` on an
empty token batch, otherwise decode, accumulate text and token ids, invoke the
extractor (a raised `TypeError` is caught and treated as no message), and
record a produced delta message in `chunks_mapping`. -/
def update_from_engine_output (dec : List Int → String)
    (ext : ExtractArgs → ExtractorResult) (ps : ParserState)
    (eo : EngineCoreOutput) : ParserState × Option DeltaMessage :=
  let request_id := eo.request_id
  let ps1 := initialize_request_state ps request_id
  if eo.new_token_ids.isEmpty then (ps1, none)
  else
    let args := v1ExtractArgs ps eo dec
    let ps2 : ParserState :=
      { ps1 with
        accumulated_text := dictSet ps1.accumulated_text request_id args.current_text,
        accumulated_token_ids :=
          dictSet ps1.accumulated_token_ids request_id args.current_token_ids }
    let delta_message :=
      match ext args with
      | .typeError => none
      | .ok d => d
    match delta_message with
    | some d =>
        ({ ps2 with
           chunks_mapping := dictSet ps2.chunks_mapping request_id
             (((dictGet ps2.chunks_mapping request_id).getD []) ++ [d]) },
         some d)
    | none => (ps2, none)

/-- The view of a V0 sequence read by `get_delta`: full token ids and output
text plus the pending delta token ids returned by `get_delta_and_reset`. -/
structure V0Seq where
  seq_id : Int
  output_text : String
  token_ids : List Int
  new_output_token_ids : List Int
deriving DecidableEq, Repr

/-- A V0 sequence group (only its sequence list is read). -/
structure V0SeqGroup where
  seqs : List V0Seq
deriving DecidableEq, Repr

/-- The three per-sequence state maps of the V0 parser. -/
structure V0ParserState where
  chunks_mapping : List (Int × List DeltaMessage)
  tool_states : List (Int × List (Int × ToolState))
  yielded_indices : List (Int × List Int)
deriving DecidableEq, Repr

/-- `_initialize_seq_state`. -/
def initialize_seq_state (ps : V0ParserState) (seq_id : Int) : V0ParserState where
  chunks_mapping := dictSetDefault ps.chunks_mapping seq_id []
  tool_states := dictSetDefault ps.tool_states seq_id []
  yielded_indices := dictSetDefault ps.yielded_indices seq_id []

/-- Python's `l[:-k]` for a list: empty when `k = 0` (since `-0` is `0`). -/
def pyDropLast {α : Type} (l : List α) (k : Nat) : List α :=
  if k = 0 then [] else l.take (l.length - k)

/-- Python's `s[:-k]` for a string. -/
def pyStrDropLast (s : String) (k : Nat) : String :=
  if k = 0 then "" else s.take (s.length - k)

/-- The extractor context computed by the V0 `get_delta`. -/
def getDeltaArgs (seq : V0Seq) (dec : List Int → String) : ExtractArgs :=
  let delta_token_ids := seq.new_output_token_ids
  let current_token_ids := seq.token_ids
  let previous_token_ids := pyDropLast current_token_ids delta_token_ids.length
  let current_text := seq.output_text
  let delta_text := dec delta_token_ids
  let previous_text := pyStrDropLast current_text delta_text.length
  ⟨previous_text, current_text, delta_text,
   previous_token_ids, current_token_ids, delta_token_ids⟩

/-- V0 `get_delta`: asserts a single-sequence group, then calls the extractor
with no surrounding `try`/`except` — an extractor `TypeError` propagates, as
does the assertion failure. -/
def get_deltaV0 (g : V0SeqGroup) (dec : List Int → String)
    (ext : ExtractArgs → ExtractorResult) : Except Unit (Option DeltaMessage) :=
  match g.seqs with
  | [seq] =>
      match ext (getDeltaArgs seq dec) with
      | .typeError => .error ()
      | .ok d => .ok d
  | _ => .error ()

/-- V0 `update`: asserts a single-sequence group, initializes that sequence's
state, calls `get_delta` and records a produced message. -/
def updateV0 (ps : V0ParserState) (g : V0SeqGroup) (dec : List Int → String)
    (ext : ExtractArgs → ExtractorResult) : Except Unit V0ParserState :=
  match g.seqs with
  | [seq] =>
      let ps1 := initialize_seq_state ps seq.seq_id
      match get_deltaV0 g dec ext with
      | .error e => .error e
      | .ok none => .ok ps1
      | .ok (some d) =>
          .ok { ps1 with
            chunks_mapping := dictSet ps1.chunks_mapping seq.seq_id
              (((dictGet ps1.chunks_mapping seq.seq_id).getD []) ++ [d]) }
  | _ => .error ()

/-- Modelled from the spec: the §4.2 per-sequence state machine
{RUNNING, BLOCKED, WAITING, FINISHED}; the `SequenceStatus` collaborator
class itself is not among the sources under verification. -/
inductive SequenceStatus where
  | RUNNING
  | BLOCKED
  | WAITING
  | FINISHED
deriving DecidableEq, Repr

/-- Modelled from the spec: the sequence-collaborator fields read and written
by `_handle_unblock`/`_merge_child_results`; `prompt` stands for the prompt
content extended by `data.append_prompt_tokens`. -/
structure Seq where
  seq_id : Int
  status : SequenceStatus
  is_parent : Bool
  parent_seq_id : Option Int
  output_text : String
  prompt : String
deriving DecidableEq, Repr

/-- Modelled from the spec: `seq.is_finished()` — the sequence has reached
FINISHED. -/
def is_finished (s : Seq) : Bool := s.status == SequenceStatus.FINISHED

/-- Modelled from the spec: `seq.is_blocked`. -/
def is_blocked (s : Seq) : Bool := s.status == SequenceStatus.BLOCKED

/-- The generator-`all` over direct children used by `_handle_unblock`. -/
def allChildrenFinished (seqs : List Seq) (pid : Int) : Bool :=
  (seqs.filter (fun c => c.parent_seq_id == some pid)).all is_finished

/-- The finished children collected by `_merge_child_results`. -/
def finishedChildren (seqs : List Seq) (pid : Int) : List Seq :=
  seqs.filter (fun c => c.parent_seq_id == some pid && is_finished c)

/-- `_compute_merged_output`: newline-join of the non-empty child outputs,
empty children contributing nothing. -/
def compute_merged_output (child_seqs : List Seq) : String :=
  let merged_outputs :=
    (child_seqs.filter (fun c => c.output_text != "")).map Seq.output_text
  if merged_outputs.isEmpty then "" else String.intercalate "\n" merged_outputs

/-- One iteration of the `for seq in seq_group.seqs` loop of
`_handle_unblock`, acting on position `i`: a blocked parent whose direct
children are all finished becomes WAITING and, when the merged child output is
non-empty, has it appended to its prompt. -/
def unblockStep (seqs : List Seq) (i : Nat) : List Seq :=
  match seqs[i]? with
  | none => seqs
  | some s =>
    if is_blocked s && s.is_parent && allChildrenFinished seqs s.seq_id then
      let s1 : Seq := { s with status := SequenceStatus.WAITING }
      let seqs1 := seqs.set i s1
      let merged := compute_merged_output (finishedChildren seqs1 s1.seq_id)
      if merged != "" then seqs1.set i { s1 with prompt := s1.prompt ++ merged }
      else seqs1
    else seqs

/-- `_handle_unblock`: the whole scan, mutating sequences in place while
iterating over the group. -/
def handle_unblock (seqs : List Seq) : List Seq :=
  (List.range seqs.length).foldl unblockStep seqs

/-- What one unblock pass can do to a single sequence: all fields but the
status and prompt are untouched, the status can only move BLOCKED → WAITING,
and a non-blocked sequence is left entirely unchanged. -/
def preserved (t u : Seq) : Prop :=
  u.seq_id = t.seq_id ∧ u.parent_seq_id = t.parent_seq_id ∧
  u.output_text = t.output_text ∧ u.is_parent = t.is_parent ∧
  (u.status = t.status ∨
    (t.status = SequenceStatus.BLOCKED ∧ u.status = SequenceStatus.WAITING)) ∧
  (t.status ≠ SequenceStatus.BLOCKED → u = t)

/-- Parent of the C8 witness scenario. -/
def w8parent : Seq := ⟨1, SequenceStatus.BLOCKED, true, none, "", "P"⟩

/-- First finished child of the C8 witness scenario. -/
def w8child1 : Seq := ⟨2, SequenceStatus.FINISHED, false, some 1, "hello", ""⟩

/-- Second finished child of the C8 witness scenario. -/
def w8child2 : Seq := ⟨3, SequenceStatus.FINISHED, false, some 1, "world", ""⟩

/-- The childless blocked parent of the C10 witness scenario. -/
def w10seq : Seq := ⟨1, SequenceStatus.BLOCKED, true, none, "", "P"⟩

/-! ### Theorems -/

theorem dictGet_dictSet_self {K V : Type} [DecidableEq K] (d : List (K × V))
    (k : K) (v : V) : dictGet (dictSet d k v) k = some v := by
  induction d with
  | nil => simp [dictGet, dictSet]
  | cons hd tl ih =>
    obtain ⟨k', v'⟩ := hd
    by_cases h : k' = k <;> simp [dictGet, dictSet, h, ih]

theorem dictGet_dictSet_ne {K V : Type} [DecidableEq K] (d : List (K × V))
    (k k' : K) (v : V) (h : k ≠ k') :
    dictGet (dictSet d k v) k' = dictGet d k' := by
  induction d with
  | nil => simp [dictGet, dictSet, h]
  | cons hd tl ih =>
    obtain ⟨k0, v0⟩ := hd
    by_cases h0 : k0 = k
    · subst h0
      simp [dictGet, dictSet, h]
    · simp [dictGet, dictSet, h0, ih]

theorem deltaStep_fst (acc : List (Int × ToolState) × List Int × List ToolCall)
    (tc : DeltaToolCall) : (deltaStep acc tc).1 = tsStep acc.1 tc := by
  dsimp only [deltaStep, tsStep]
  split <;> rfl

theorem foldl_deltaStep_fst (frags : List DeltaToolCall) :
    ∀ (ts : List (Int × ToolState)) (y : List Int) (c : List ToolCall),
    (frags.foldl deltaStep (ts, y, c)).1 = frags.foldl tsStep ts := by
  induction frags with
  | nil => intro ts y c; rfl
  | cons tc rest ih =>
    intro ts y c
    have h := deltaStep_fst (ts, y, c) tc
    dsimp only [List.foldl]
    rw [show deltaStep (ts, y, c) tc
        = (tsStep ts tc, (deltaStep (ts, y, c) tc).2.1, (deltaStep (ts, y, c) tc).2.2) by
      rw [← h]]
    exact ih _ _ _

/-- The yielded-set evolution of one fragment, independent of the calls
accumulated so far. -/
theorem deltaStep_yielded (ts : List (Int × ToolState)) (y : List Int)
    (c : List ToolCall) (tc : DeltaToolCall) :
    (deltaStep (ts, y, c) tc).2.1
      = if readyToEmit y tc.index
            (applyToolCallDelta ((dictGet ts tc.index).getD initToolState) tc)
        then y ++ [tc.index] else y := by
  dsimp only [deltaStep]
  split <;> simp_all

/-- Per-index projection: after any fragment sequence, the stored state of
index `i` is the fold of `applyToolCallDelta` over exactly the fragments
addressed to `i`. -/
theorem foldl_tsStep_dictGet (frags : List DeltaToolCall) :
    ∀ (ts : List (Int × ToolState)) (i : Int),
    (dictGet (frags.foldl tsStep ts) i).getD initToolState
      = (frags.filter (fun tc => tc.index = i)).foldl applyToolCallDelta
          ((dictGet ts i).getD initToolState) := by
  induction frags with
  | nil => intro ts i; rfl
  | cons tc rest ih =>
    intro ts i
    by_cases h : tc.index = i
    · subst h
      simp only [List.foldl, List.filter_cons, decide_eq_true_eq, if_pos rfl]
      rw [ih]
      simp [tsStep, dictGet_dictSet_self]
    · simp only [List.foldl, List.filter_cons, decide_eq_true_eq, if_neg h]
      rw [ih]
      simp [tsStep, dictGet_dictSet_ne _ _ _ _ h]

theorem readyToEmit_iff (yielded : List Int) (i : Int) (st : ToolState) :
    readyToEmit yielded i st = true ↔
      (i ∉ yielded ∧ st.id ≠ none ∧ st.type ≠ none ∧ st.function_name ≠ none ∧
       st.brace_count = 0 ∧ st.arguments ≠ "" ∧ '\x7b' ∈ st.arguments.data) := by
  simp [readyToEmit, argumentsComplete, Option.isSome_iff_ne_none, and_assoc,
    bne_iff_ne, beq_iff_eq]

theorem deltaStep_eq (ts : List (Int × ToolState)) (y : List Int)
    (c : List ToolCall) (tc : DeltaToolCall) :
    deltaStep (ts, y, c) tc = (tsStep ts tc, yStep ts y tc, c ++ cStep ts y tc) := by
  dsimp only [deltaStep, tsStep, yStep, cStep]
  split <;> simp_all

/-- The tool-state dict and yielded set after a fragment fold do not depend on
the calls accumulated so far. -/
theorem foldl_deltaStep_calls_indep (frags : List DeltaToolCall) :
    ∀ (ts : List (Int × ToolState)) (y : List Int) (c c' : List ToolCall),
    (frags.foldl deltaStep (ts, y, c)).1 = (frags.foldl deltaStep (ts, y, c')).1 ∧
    (frags.foldl deltaStep (ts, y, c)).2.1 = (frags.foldl deltaStep (ts, y, c')).2.1 := by
  induction frags with
  | nil => intros; exact ⟨rfl, rfl⟩
  | cons tc rest ih =>
    intro ts y c c'
    dsimp only [List.foldl]
    rw [deltaStep_eq, deltaStep_eq]
    exact ih _ _ _ _

/-- `runBatches` is the fragment-level fold over the concatenation of all
batches' fragments. -/
theorem runBatches_eq_foldl (batches : List DeltaMessage) :
    ∀ (ts : List (Int × ToolState)) (y : List Int),
    runBatches ts y batches
      = (((batches.flatMap DeltaMessage.tool_calls).foldl deltaStep (ts, y, [])).1,
         ((batches.flatMap DeltaMessage.tool_calls).foldl deltaStep (ts, y, [])).2.1) := by
  induction batches with
  | nil => intros; rfl
  | cons d rest ih =>
    intro ts y
    have hstep : runBatches ts y (d :: rest)
        = runBatches ((d.tool_calls.foldl deltaStep (ts, y, [])).1)
            ((d.tool_calls.foldl deltaStep (ts, y, [])).2.1) rest := rfl
    rw [hstep, ih]
    have hflat : (d :: rest).flatMap DeltaMessage.tool_calls
        = d.tool_calls ++ rest.flatMap DeltaMessage.tool_calls := by
      simp [List.flatMap_cons]
    rw [hflat, List.foldl_append]
    have hindep := foldl_deltaStep_calls_indep (rest.flatMap DeltaMessage.tool_calls)
      ((d.tool_calls.foldl deltaStep (ts, y, [])).1)
      ((d.tool_calls.foldl deltaStep (ts, y, [])).2.1)
      [] ((d.tool_calls.foldl deltaStep (ts, y, [])).2.2)
    rw [hindep.1, hindep.2]

/-- Growth of the yielded set over any fragment sequence: it only extends, an
index is appended at most once, and never when it was already yielded. -/
theorem foldl_deltaStep_yielded_growth (frags : List DeltaToolCall) :
    ∀ (ts : List (Int × ToolState)) (y : List Int) (c : List ToolCall) (i : Int),
    ∃ e, (frags.foldl deltaStep (ts, y, c)).2.1 = y ++ e ∧
      e.count i ≤ 1 ∧ (i ∈ y → e.count i = 0) := by
  induction frags with
  | nil =>
    intro ts y c i
    exact ⟨[], by simp⟩
  | cons tc rest ih =>
    intro ts y c i
    dsimp only [List.foldl]
    rw [deltaStep_eq]
    by_cases hr : readyToEmit y tc.index
        (applyToolCallDelta ((dictGet ts tc.index).getD initToolState) tc) = true
    · have hnotmem : tc.index ∉ y := by
        have := (readyToEmit_iff y tc.index
          (applyToolCallDelta ((dictGet ts tc.index).getD initToolState) tc)).1 hr
        exact this.1
      have hy : yStep ts y tc = y ++ [tc.index] := by simp [yStep, hr]
      obtain ⟨e', he', hc1, hc0⟩ := ih (tsStep ts tc) (y ++ [tc.index]) (c ++ cStep ts y tc) i
      refine ⟨tc.index :: e', ?_, ?_, ?_⟩
      · rw [hy, he']
        simp
      · by_cases hi : tc.index = i
        · subst hi
          have : e'.count tc.index = 0 := hc0 (by simp)
          simp [List.count_cons, this]
        · simpa [List.count_cons, hi] using hc1
      · intro hiy
        by_cases hi : tc.index = i
        · exact absurd (hi ▸ hiy) hnotmem
        · have : e'.count i = 0 := hc0 (by simp [hiy])
          simp [List.count_cons, hi, this]
    · have hy : yStep ts y tc = y := by simp [yStep, hr]
      rw [hy]
      exact ih (tsStep ts tc) y (c ++ cStep ts y tc) i

theorem applyToolCallDelta_args_brace (st : ToolState) (tc : DeltaToolCall) :
    (applyToolCallDelta st tc).arguments = st.arguments ++ argText tc ∧
    (applyToolCallDelta st tc).brace_count
      = updateBraceCount st.brace_count (argText tc).data := by
  rcases tc with ⟨i, tid, tty, tf⟩
  rcases tf with _ | ⟨fn, fa⟩
  · cases tid <;> cases tty <;>
      simp [applyToolCallDelta, argText, updateBraceCount]
  · cases tid <;> cases tty <;> cases fn <;> cases fa <;>
      simp [applyToolCallDelta, argText, updateBraceCount]

theorem foldl_applyToolCallDelta_args (frags : List DeltaToolCall) :
    ∀ st : ToolState, (frags.foldl applyToolCallDelta st).arguments
      = st.arguments ++ concatArgs frags := by
  induction frags with
  | nil => intro st; simp [concatArgs]
  | cons tc rest ih =>
    intro st
    dsimp only [List.foldl]
    rw [ih, (applyToolCallDelta_args_brace st tc).1]
    show st.arguments ++ argText tc ++ concatArgs rest
      = st.arguments ++ (argText tc ++ concatArgs rest)
    exact String.append_assoc _ _ _

theorem updateBraceCount_eq (cs : List Char) : ∀ n : Int,
    updateBraceCount n cs
      = n + (cs.count '\x7b' : Int) - (cs.count '\x7d' : Int) := by
  induction cs with
  | nil => intro n; simp [updateBraceCount]
  | cons c cs ih =>
    intro n
    have h1 : updateBraceCount n (c :: cs)
        = updateBraceCount (n + braceDelta c) cs := rfl
    rw [h1, ih]
    simp only [List.count_cons, braceDelta, beq_iff_eq]
    split_ifs <;> simp_all <;> omega

theorem applyToolCallDelta_braceOK (st : ToolState) (tc : DeltaToolCall)
    (h : braceOK st) : braceOK (applyToolCallDelta st tc) := by
  unfold braceOK at h ⊢
  rw [(applyToolCallDelta_args_brace st tc).2,
      (applyToolCallDelta_args_brace st tc).1,
      updateBraceCount_eq, h]
  simp only [String.data_append, List.count_append]
  push_cast
  ring

theorem foldl_applyToolCallDelta_braceOK (frags : List DeltaToolCall) :
    ∀ st : ToolState, braceOK st → braceOK (frags.foldl applyToolCallDelta st) := by
  induction frags with
  | nil => intro st h; exact h
  | cons tc rest ih =>
    intro st h
    exact ih _ (applyToolCallDelta_braceOK st tc h)

theorem braceOK_init : braceOK initToolState := by
  simp [braceOK, initToolState]

/-- C2: across any whole session of fragment batches for the same request, a
given tool index is emitted at most once — never when it was already in the
yielded set — while its accumulated argument text keeps receiving every
argument fragment addressed to it. -/
theorem at_most_once_emission (ts : List (Int × ToolState)) (y : List Int)
    (batches : List DeltaMessage) (i : Int) :
    ∃ e, (runBatches ts y batches).2 = y ++ e ∧
      e.count i ≤ (if i ∈ y then 0 else 1) ∧
      ((dictGet (runBatches ts y batches).1 i).getD initToolState).arguments
        = ((dictGet ts i).getD initToolState).arguments
          ++ concatArgs ((batches.flatMap DeltaMessage.tool_calls).filter
              (fun tc => tc.index = i)) := by
  obtain ⟨e, he, h1, h0⟩ :=
    foldl_deltaStep_yielded_growth (batches.flatMap DeltaMessage.tool_calls) ts y [] i
  refine ⟨e, ?_, ?_, ?_⟩
  · rw [runBatches_eq_foldl]
    exact he
  · by_cases hy : i ∈ y
    · simp [hy, h0 hy]
    · simpa [hy] using h1
  · have hfst : (runBatches ts y batches).1
        = ((batches.flatMap DeltaMessage.tool_calls).foldl deltaStep (ts, y, [])).1 := by
      rw [runBatches_eq_foldl]
    rw [hfst, foldl_deltaStep_fst, foldl_tsStep_dictGet,
        foldl_applyToolCallDelta_args]

/-- C4: after any session of fragment batches applied to a fresh request, the
stored `brace_count` of every tool index equals the number of left braces
minus the number of right braces over its full accumulated argument text,
although it is only ever updated incrementally per appended character. -/
theorem brace_count_equals_brace_balance (batches : List DeltaMessage) (i : Int) :
    ((dictGet (runBatches [] [] batches).1 i).getD initToolState).brace_count
      = ((((dictGet (runBatches [] [] batches).1 i).getD
            initToolState).arguments.data.count '\x7b' : Int)
        - (((dictGet (runBatches [] [] batches).1 i).getD
            initToolState).arguments.data.count '\x7d' : Int)) := by
  have hfst : (runBatches [] [] batches).1
      = ((batches.flatMap DeltaMessage.tool_calls).foldl deltaStep ([], [], [])).1 := by
    rw [runBatches_eq_foldl]
  rw [hfst, foldl_deltaStep_fst, foldl_tsStep_dictGet]
  exact foldl_applyToolCallDelta_braceOK _ _ braceOK_init

theorem deltaStep_emits_iff (ts : List (Int × ToolState)) (yielded : List Int)
    (calls : List ToolCall) (tc : DeltaToolCall) :
    ((deltaStep (ts, yielded, calls) tc).2.2 ≠ calls) ↔
      readyToEmit yielded tc.index
        (applyToolCallDelta ((dictGet ts tc.index).getD initToolState) tc) = true := by
  dsimp only [deltaStep]
  split
  next h =>
    simp only [h, ne_eq, iff_true]
    intro hc
    have := congrArg List.length hc
    simp at this
  next h =>
    simp [h]

/-- C1: for every (request, tool-index) accumulator, a ToolCall is emitted at
the point a fragment update is checked if and only if the index has not
previously been emitted, the accumulated `id`, `type` and `function_name` are
all non-null, the running `brace_count` is 0, and the accumulated arguments
text is non-empty and contains at least one left brace. -/
theorem toolCall_emitted_iff (ts : List (Int × ToolState)) (yielded : List Int)
    (calls : List ToolCall) (tc : DeltaToolCall) :
    ((deltaStep (ts, yielded, calls) tc).2.2 ≠ calls) ↔
      (tc.index ∉ yielded ∧
       (applyToolCallDelta ((dictGet ts tc.index).getD initToolState) tc).id ≠ none ∧
       (applyToolCallDelta ((dictGet ts tc.index).getD initToolState) tc).type ≠ none ∧
       (applyToolCallDelta ((dictGet ts tc.index).getD initToolState) tc).function_name ≠ none ∧
       (applyToolCallDelta ((dictGet ts tc.index).getD initToolState) tc).brace_count = 0 ∧
       (applyToolCallDelta ((dictGet ts tc.index).getD initToolState) tc).arguments ≠ "" ∧
       '\x7b' ∈ (applyToolCallDelta ((dictGet ts tc.index).getD initToolState) tc).arguments.data) :=
  (deltaStep_emits_iff ts yielded calls tc).trans
    (readyToEmit_iff yielded tc.index
      (applyToolCallDelta ((dictGet ts tc.index).getD initToolState) tc))

/-- C9: closing braces may outnumber opening braces with no guard —
`brace_count` goes to `-1` on a lone right brace — and a single fragment with
arguments `"}{"` (id, type and function name set) has brace count 0, contains
a left brace, and is emitted. -/
theorem negative_brace_count_accepted :
    (applyToolCallDelta initToolState
        ⟨0, none, none, some ⟨none, some "\x7d"⟩⟩).brace_count = -1 ∧
    (get_tool_calls_from_deltas [] []
        ⟨[⟨0, some "call1", some "function",
           some ⟨some "f", some "\x7d\x7b"⟩⟩]⟩).2.2
      = some [⟨"call1", "function", ⟨"f", "\x7d\x7b"⟩⟩] := by
  constructor <;> decide

/-- C3 counterexample: on a batch whose first fragment already completes
index 0 and whose second fragment appends more argument text to the same
index, the code emits the ToolCall with only the first fragment's argument
text, while the batch-then-check semantics the claim describes would emit it
with the whole batch's argument text for that index. -/
theorem batch_then_check_counterexample :
    (get_tool_calls_from_deltas [] [] cexBatch).2.2
      = some [⟨"x", "function", ⟨"f", "\x7b\x7d"⟩⟩] ∧
    (ingestFragmentsSpecStyle [] [] cexBatch).2.2
      = some [⟨"x", "function", ⟨"f", "\x7b\x7d!"⟩⟩] ∧
    concatArgs (cexBatch.tool_calls.filter (fun tc => tc.index = 0)) = "\x7b\x7d!" ∧
    ("\x7b\x7d" : String) ≠ "\x7b\x7d!" := by
  refine ⟨by decide, by decide, by decide, by decide⟩

/-- C3 amended: `get_tool_calls_from_deltas` checks the emission predicate
immediately after applying each fragment; when the first of two same-index
fragments of a batch already satisfies the predicate, the emitted ToolCall
carries exactly the argument text accumulated up to that fragment, while the
second fragment still appends its argument text to the stored accumulator
without re-emission. -/
theorem per_fragment_check_amended (tc1 tc2 : DeltaToolCall)
    (hidx : tc2.index = tc1.index)
    (hready : readyToEmit [] tc1.index (applyToolCallDelta initToolState tc1) = true) :
    (get_tool_calls_from_deltas [] [] ⟨[tc1, tc2]⟩).2.2
      = some [mkToolCall (applyToolCallDelta initToolState tc1)] ∧
    ((dictGet (get_tool_calls_from_deltas [] [] ⟨[tc1, tc2]⟩).1 tc1.index).getD
        initToolState).arguments
      = (applyToolCallDelta initToolState tc1).arguments ++ argText tc2 := by
  have h1 : deltaStep ([], [], []) tc1
      = ([(tc1.index, applyToolCallDelta initToolState tc1)], [tc1.index],
         [mkToolCall (applyToolCallDelta initToolState tc1)]) := by
    rw [deltaStep_eq]
    simp [tsStep, yStep, cStep, dictGet, dictSet, hready]
  have hget : dictGet [(tc1.index, applyToolCallDelta initToolState tc1)] tc2.index
      = some (applyToolCallDelta initToolState tc1) := by
    simp [dictGet, hidx]
  have hnr : ∀ st : ToolState, readyToEmit [tc1.index] tc1.index st = false := by
    intro st
    simp [readyToEmit, List.contains]
  have h2 : deltaStep
      ([(tc1.index, applyToolCallDelta initToolState tc1)], [tc1.index],
       [mkToolCall (applyToolCallDelta initToolState tc1)]) tc2
      = ([(tc1.index, applyToolCallDelta (applyToolCallDelta initToolState tc1) tc2)],
         [tc1.index], [mkToolCall (applyToolCallDelta initToolState tc1)]) := by
    rw [deltaStep_eq]
    simp [tsStep, yStep, cStep, hidx, dictGet, dictSet, hnr]
  have hrun : get_tool_calls_from_deltas [] [] ⟨[tc1, tc2]⟩
      = ([(tc1.index, applyToolCallDelta (applyToolCallDelta initToolState tc1) tc2)],
         [tc1.index], some [mkToolCall (applyToolCallDelta initToolState tc1)]) := by
    unfold get_tool_calls_from_deltas
    dsimp only [List.foldl]
    rw [h1, h2]
    simp
  rw [hrun]
  refine ⟨rfl, ?_⟩
  simp [dictGet, (applyToolCallDelta_args_brace (applyToolCallDelta initToolState tc1) tc2).1]

/-- Witness: the amended per-fragment behaviour at the concrete C3 batch. -/
theorem per_fragment_check_amended_witness :
    (get_tool_calls_from_deltas [] [] ⟨[cexFrag1, cexFrag2]⟩).2.2
      = some [mkToolCall (applyToolCallDelta initToolState cexFrag1)] ∧
    ((dictGet (get_tool_calls_from_deltas [] [] ⟨[cexFrag1, cexFrag2]⟩).1
        cexFrag1.index).getD initToolState).arguments
      = (applyToolCallDelta initToolState cexFrag1).arguments ++ argText cexFrag2 :=
  per_fragment_check_amended cexFrag1 cexFrag2 (by decide) (by decide)

/-- C5 counterexample: the V0 `update`/`get_delta` path does propagate
failures — an extractor signalling incompatibility (`TypeError`) escapes
`update` because `get_delta` has no `try`/`except`, and a sequence group
without exactly one sequence trips the assertion. -/
theorem v0_propagates_counterexample :
    updateV0 ⟨[], [], []⟩ ⟨[⟨1, "", [5], [5]⟩]⟩ (fun _ => "")
        (fun _ => ExtractorResult.typeError) = Except.error () ∧
    updateV0 ⟨[], [], []⟩ ⟨[⟨1, "", [], []⟩, ⟨2, "", [], []⟩]⟩ (fun _ => "")
        (fun _ => ExtractorResult.ok none) = Except.error () :=
  ⟨rfl, rfl⟩

/-- C5 amended: the V1 path swallows extractor incompatibility (it behaves
exactly as if the extractor had produced no message), while the V0
`update` path fails precisely when the group does not hold exactly one
sequence (assertion) or the extractor signals incompatibility (uncaught
`TypeError`); on every other input it returns normally. -/
theorem v0_error_characterization (ps : V0ParserState) (g : V0SeqGroup)
    (dec : List Int → String) (ext : ExtractArgs → ExtractorResult) :
    (updateV0 ps g dec ext = Except.error () ↔
      (g.seqs.length ≠ 1 ∨
       ∃ s, g.seqs = [s] ∧ ext (getDeltaArgs s dec) = ExtractorResult.typeError)) ∧
    (∀ (ps' : ParserState) (eo : EngineCoreOutput),
      update_from_engine_output dec (fun _ => ExtractorResult.typeError) ps' eo
        = update_from_engine_output dec (fun _ => ExtractorResult.ok none) ps' eo) := by
  constructor
  · cases hg : g.seqs with
    | nil => simp [updateV0, hg]
    | cons s t =>
      cases t with
      | nil =>
        cases hext : ext (getDeltaArgs s dec) with
        | typeError => simp [updateV0, get_deltaV0, hg, hext]
        | ok d =>
          cases d <;> simp [updateV0, get_deltaV0, hg, hext]
      | cons s2 t2 =>
        have hlen : (s :: s2 :: t2).length ≠ 1 := by
          simp
        simp [updateV0, hg, hlen]
  · intro ps' eo
    rfl

/-- C6: when the injected extractor rejects the calling convention
(`TypeError`) on a non-empty token batch, `update_from_engine_output`
returns `none` for the step and records no chunk, rather than propagating
the failure. -/
theorem extractor_incompatibility_is_no_fragments (dec : List Int → String)
    (ext : ExtractArgs → ExtractorResult) (ps : ParserState)
    (eo : EngineCoreOutput) (hne : eo.new_token_ids ≠ [])
    (hext : ext (v1ExtractArgs ps eo dec) = ExtractorResult.typeError) :
    (update_from_engine_output dec ext ps eo).2 = none ∧
    dictGet (update_from_engine_output dec ext ps eo).1.chunks_mapping eo.request_id
      = dictGet (initialize_request_state ps eo.request_id).chunks_mapping
          eo.request_id := by
  have hie : eo.new_token_ids.isEmpty = false := by
    cases h : eo.new_token_ids with
    | nil => exact absurd h hne
    | cons a l => rfl
  constructor <;> simp [update_from_engine_output, hie, hext]

/-- Witness for C6 at a concrete request and always-incompatible extractor. -/
theorem extractor_incompatibility_is_no_fragments_witness :
    (update_from_engine_output (fun _ => "") (fun _ => ExtractorResult.typeError)
        emptyParserState ⟨"r", [1]⟩).2 = none ∧
    dictGet (update_from_engine_output (fun _ => "")
        (fun _ => ExtractorResult.typeError) emptyParserState
        ⟨"r", [1]⟩).1.chunks_mapping "r"
      = dictGet (initialize_request_state emptyParserState "r").chunks_mapping "r" :=
  extractor_incompatibility_is_no_fragments (fun _ => "")
    (fun _ => ExtractorResult.typeError) emptyParserState ⟨"r", [1]⟩
    (by decide) (by decide)

/-- C7 counterexample: calling `update_from_engine_output` with an empty
token list for an untracked request id returns `none` but does mutate the
parser's state maps — the request id is lazily inserted with empty defaults
into all five maps, so the state is not unchanged. -/
theorem empty_input_mutation_counterexample :
    update_from_engine_output (fun _ => "") (fun _ => ExtractorResult.ok none)
        emptyParserState ⟨"r", []⟩
      = (initialize_request_state emptyParserState "r", none) ∧
    initialize_request_state emptyParserState "r" ≠ emptyParserState := by
  constructor
  · rfl
  · decide

/-- C7 amended: an empty token list returns `none`, and for a request id
already tracked in all five state maps the call leaves the parser state
completely unchanged; for an untracked id the only mutation is the lazy
insertion of empty defaults performed by `_initialize_request_state`. -/
theorem empty_input_noop_amended (dec : List Int → String)
    (ext : ExtractArgs → ExtractorResult) (ps : ParserState) (rid : String)
    (hc : dictContains ps.chunks_mapping rid = true)
    (ht : dictContains ps.tool_states rid = true)
    (hy : dictContains ps.yielded_indices rid = true)
    (ha : dictContains ps.accumulated_text rid = true)
    (hk : dictContains ps.accumulated_token_ids rid = true) :
    update_from_engine_output dec ext ps ⟨rid, []⟩ = (ps, none) := by
  have hinit : initialize_request_state ps rid = ps := by
    simp [initialize_request_state, dictSetDefault, hc, ht, hy, ha, hk]
  simp [update_from_engine_output, hinit]

/-- Witness for C7 amended at a concretely tracked request id. -/
theorem empty_input_noop_amended_witness :
    update_from_engine_output (fun _ => "") (fun _ => ExtractorResult.ok none)
        (initialize_request_state emptyParserState "r") ⟨"r", []⟩
      = (initialize_request_state emptyParserState "r", none) :=
  empty_input_noop_amended (fun _ => "") (fun _ => ExtractorResult.ok none)
    (initialize_request_state emptyParserState "r") "r"
    (by decide) (by decide) (by decide) (by decide) (by decide)

theorem preserved_refl (t : Seq) : preserved t t :=
  ⟨rfl, rfl, rfl, rfl, Or.inl rfl, fun _ => rfl⟩

theorem preserved_trans {t u v : Seq} (h1 : preserved t u) (h2 : preserved u v) :
    preserved t v := by
  obtain ⟨a1, b1, c1, d1, e1, f1⟩ := h1
  obtain ⟨a2, b2, c2, d2, e2, f2⟩ := h2
  refine ⟨a2.trans a1, b2.trans b1, c2.trans c1, d2.trans d1, ?_, ?_⟩
  · rcases e1 with he1 | ⟨hb1, hw1⟩
    · rcases e2 with he2 | ⟨hb2, hw2⟩
      · exact Or.inl (he2.trans he1)
      · exact Or.inr ⟨he1 ▸ hb2, hw2⟩
    · have : v = u := f2 (by rw [hw1]; intro h; cases h)
      exact Or.inr ⟨hb1, this ▸ hw1⟩
  · intro ht
    have hu : u = t := f1 ht
    have hv : v = u := f2 (hu ▸ ht)
    exact hv.trans hu

theorem preserved_is_finished {t u : Seq} (h : preserved t u) :
    is_finished u = is_finished t := by
  obtain ⟨_, _, _, _, e, _⟩ := h
  rcases e with he | ⟨hb, hw⟩
  · simp [is_finished, he]
  · simp [is_finished, hb, hw]

theorem preserved_of_finished {t u : Seq} (h : preserved t u)
    (hf : is_finished t = true) : u = t := by
  apply h.2.2.2.2.2
  intro hb
  rw [is_finished, hb] at hf
  cases hf

theorem forall2_preserved_set (l : List Seq) (i : Nat) (s u : Seq)
    (hget : l[i]? = some s) (hp : preserved s u) :
    List.Forall₂ preserved l (l.set i u) := by
  induction l generalizing i with
  | nil => cases hget
  | cons h tl ih =>
    cases i with
    | zero =>
      simp only [List.getElem?_cons_zero, Option.some.injEq] at hget
      subst hget
      exact List.Forall₂.cons hp (List.forall₂_same.2 fun x _ => preserved_refl x)
    | succ n =>
      simp only [List.getElem?_cons_succ] at hget
      exact List.Forall₂.cons (preserved_refl h) (ih n hget)

theorem forall2_preserved_trans {l m n : List Seq}
    (h1 : List.Forall₂ preserved l m) (h2 : List.Forall₂ preserved m n) :
    List.Forall₂ preserved l n := by
  induction h1 generalizing n with
  | nil =>
    cases h2
    exact List.Forall₂.nil
  | cons hr hrest ih =>
    cases h2 with
    | cons hr2 hrest2 =>
      exact List.Forall₂.cons (preserved_trans hr hr2) (ih hrest2)

theorem allChildrenFinished_stable {seqs seqs' : List Seq}
    (h : List.Forall₂ preserved seqs seqs') (pid : Int) :
    allChildrenFinished seqs' pid = allChildrenFinished seqs pid := by
  induction h with
  | nil => rfl
  | @cons a b l l' hr hrest ih =>
    simp only [allChildrenFinished, List.filter_cons] at ih ⊢
    rw [hr.2.1]
    by_cases hc : (a.parent_seq_id == some pid) = true
    · rw [if_pos hc, if_pos hc]
      simp only [List.all_cons]
      rw [preserved_is_finished hr, ih]
    · rw [if_neg hc, if_neg hc]
      exact ih

theorem finishedChildren_stable {seqs seqs' : List Seq}
    (h : List.Forall₂ preserved seqs seqs') (pid : Int) :
    finishedChildren seqs' pid = finishedChildren seqs pid := by
  induction h with
  | nil => rfl
  | @cons a b l l' hr hrest ih =>
    simp only [finishedChildren, List.filter_cons] at ih ⊢
    rw [hr.2.1, preserved_is_finished hr]
    by_cases hc : (a.parent_seq_id == some pid && is_finished a) = true
    · rw [if_pos hc, if_pos hc, ih,
          preserved_of_finished hr (Bool.and_eq_true_iff.mp hc).2]
    · rw [if_neg hc, if_neg hc]
      exact ih

theorem unblockStep_preserved (seqs : List Seq) (i : Nat) :
    List.Forall₂ preserved seqs (unblockStep seqs i) := by
  unfold unblockStep
  cases hget : seqs[i]? with
  | none => exact List.forall₂_same.2 fun x _ => preserved_refl x
  | some s =>
    dsimp only
    by_cases hcond :
        (is_blocked s && s.is_parent && allChildrenFinished seqs s.seq_id) = true
    · have hb : s.status = SequenceStatus.BLOCKED := by
        have h1 := (Bool.and_eq_true_iff.mp (Bool.and_eq_true_iff.mp hcond).1).1
        simpa [is_blocked] using h1
      rw [if_pos hcond]
      by_cases hm : (compute_merged_output
          (finishedChildren (seqs.set i { s with status := SequenceStatus.WAITING })
            ({ s with status := SequenceStatus.WAITING } : Seq).seq_id) != "") = true
      · rw [if_pos hm, List.set_set]
        exact forall2_preserved_set _ _ _ _ hget
          ⟨rfl, rfl, rfl, rfl, Or.inr ⟨hb, rfl⟩, fun hns => absurd hb hns⟩
      · rw [if_neg hm]
        exact forall2_preserved_set _ _ _ _ hget
          ⟨rfl, rfl, rfl, rfl, Or.inr ⟨hb, rfl⟩, fun hns => absurd hb hns⟩
    · rw [if_neg hcond]
      exact List.forall₂_same.2 fun x _ => preserved_refl x

theorem unblockStep_get_ne (seqs : List Seq) (i j : Nat) (h : i ≠ j) :
    (unblockStep seqs i)[j]? = seqs[j]? := by
  unfold unblockStep
  cases hget : seqs[i]? with
  | none => rfl
  | some s =>
    dsimp only
    split
    · split
      · rw [List.set_set, List.getElem?_set_ne h]
      · rw [List.getElem?_set_ne h]
    · rfl

theorem foldl_unblockStep_get_not_mem (L : List Nat) :
    ∀ (seqs : List Seq) (j : Nat), j ∉ L →
      (L.foldl unblockStep seqs)[j]? = seqs[j]? := by
  induction L with
  | nil => intro seqs j _; rfl
  | cons i rest ih =>
    intro seqs j h
    have hij : i ≠ j := fun he => h (he ▸ List.mem_cons_self i rest)
    have hjr : j ∉ rest := fun hm => h (List.mem_cons_of_mem i hm)
    dsimp only [List.foldl]
    rw [ih _ _ hjr, unblockStep_get_ne _ _ _ hij]

theorem foldl_unblockStep_preserved (L : List Nat) :
    ∀ seqs : List Seq, List.Forall₂ preserved seqs (L.foldl unblockStep seqs) := by
  induction L with
  | nil => intro seqs; exact List.forall₂_same.2 fun x _ => preserved_refl x
  | cons i rest ih =>
    intro seqs
    exact forall2_preserved_trans (unblockStep_preserved seqs i) (ih _)

theorem allChildrenFinished_true_iff (seqs : List Seq) (pid : Int) :
    allChildrenFinished seqs pid = true ↔
      ∀ c ∈ seqs, c.parent_seq_id = some pid →
        c.status = SequenceStatus.FINISHED := by
  simp only [allChildrenFinished, List.all_eq_true, List.mem_filter, is_finished,
    beq_iff_eq, Bool.and_eq_true, and_imp]

theorem unblockStep_cond_true (X : List Seq) (i : Nat) (s : Seq)
    (hget : X[i]? = some s)
    (hcond : (is_blocked s && s.is_parent && allChildrenFinished X s.seq_id) = true) :
    unblockStep X i =
      (if compute_merged_output (finishedChildren
            (X.set i { s with status := SequenceStatus.WAITING }) s.seq_id) != ""
       then X.set i { s with
         status := SequenceStatus.WAITING,
         prompt := s.prompt ++ compute_merged_output (finishedChildren
           (X.set i { s with status := SequenceStatus.WAITING }) s.seq_id) }
       else X.set i { s with status := SequenceStatus.WAITING }) := by
  unfold unblockStep
  rw [hget]
  dsimp only
  rw [if_pos hcond, List.set_set]

theorem unblockStep_cond_false (X : List Seq) (i : Nat) (s : Seq)
    (hget : X[i]? = some s)
    (hcond : (is_blocked s && s.is_parent && allChildrenFinished X s.seq_id) = false) :
    unblockStep X i = X := by
  unfold unblockStep
  rw [hget]
  dsimp only
  rw [if_neg (by simp [hcond])]

theorem handle_unblock_blocked_parent (seqs : List Seq) (i : Nat) (s : Seq)
    (hget : seqs[i]? = some s) (hb : s.status = SequenceStatus.BLOCKED)
    (hp : s.is_parent = true) :
    (allChildrenFinished seqs s.seq_id = true →
       (handle_unblock seqs)[i]? = some { s with
         status := SequenceStatus.WAITING,
         prompt := s.prompt
           ++ compute_merged_output (finishedChildren seqs s.seq_id) }) ∧
    (allChildrenFinished seqs s.seq_id = false →
       (handle_unblock seqs)[i]? = some s) := by
  have hilt : i < seqs.length := (List.getElem?_eq_some.mp hget).1
  have hsplit : List.range seqs.length
      = List.range i ++ List.range' i (seqs.length - i) := by
    rw [List.range_eq_range', List.range_eq_range']
    have h2 := List.range'_append 0 i (seqs.length - i) 1
    simp at h2
    rw [h2]
    congr 1
    omega
  have hcons : List.range' i (seqs.length - i)
      = i :: List.range' (i + 1) (seqs.length - i - 1) := by
    rw [show seqs.length - i = (seqs.length - i - 1) + 1 by omega, List.range'_succ]
    simp
  have hunfold : handle_unblock seqs
      = (List.range' (i + 1) (seqs.length - i - 1)).foldl unblockStep
          (unblockStep ((List.range i).foldl unblockStep seqs) i) := by
    rw [handle_unblock, hsplit, hcons, List.foldl_append]
    rfl
  have hX0get : ((List.range i).foldl unblockStep seqs)[i]? = some s := by
    rw [foldl_unblockStep_get_not_mem _ _ _ (by simp [List.mem_range])]
    exact hget
  have hX0len : i < ((List.range i).foldl unblockStep seqs).length := by
    rw [← (foldl_unblockStep_preserved (List.range i) seqs).length_eq]
    exact hilt
  have hnm : i ∉ List.range' (i + 1) (seqs.length - i - 1) := by
    intro hm
    have := List.mem_range'_1.mp hm
    omega
  constructor
  · intro hall
    have hallX0 : allChildrenFinished ((List.range i).foldl unblockStep seqs)
        s.seq_id = true := by
      rw [allChildrenFinished_stable (foldl_unblockStep_preserved (List.range i) seqs)]
      exact hall
    have hcond : (is_blocked s && s.is_parent &&
        allChildrenFinished ((List.range i).foldl unblockStep seqs) s.seq_id)
        = true := by
      simp [is_blocked, hb, hp, hallX0]
    have hF1 : List.Forall₂ preserved seqs
        (((List.range i).foldl unblockStep seqs).set i
          { s with status := SequenceStatus.WAITING }) :=
      forall2_preserved_trans (foldl_unblockStep_preserved _ _)
        (forall2_preserved_set _ i s _ hX0get
          ⟨rfl, rfl, rfl, rfl, Or.inr ⟨hb, rfl⟩, fun hns => absurd hb hns⟩)
    have hfc : finishedChildren
        (((List.range i).foldl unblockStep seqs).set i
          { s with status := SequenceStatus.WAITING }) s.seq_id
        = finishedChildren seqs s.seq_id := finishedChildren_stable hF1 s.seq_id
    have hstep := unblockStep_cond_true ((List.range i).foldl unblockStep seqs)
      i s hX0get hcond
    rw [hfc] at hstep
    by_cases hm : compute_merged_output (finishedChildren seqs s.seq_id) = ""
    · rw [hm, if_neg (by decide)] at hstep
      rw [hunfold, hstep, foldl_unblockStep_get_not_mem _ _ _ hnm,
          List.getElem?_set_self hX0len, hm]
      simp
    · have hmne : (compute_merged_output (finishedChildren seqs s.seq_id) != "")
          = true := by
        simpa [bne_iff_ne] using hm
      rw [if_pos hmne] at hstep
      rw [hunfold, hstep, foldl_unblockStep_get_not_mem _ _ _ hnm,
          List.getElem?_set_self hX0len]
  · intro hallf
    have hallX0 : allChildrenFinished ((List.range i).foldl unblockStep seqs)
        s.seq_id = false := by
      rw [allChildrenFinished_stable (foldl_unblockStep_preserved (List.range i) seqs)]
      exact hallf
    have hstep := unblockStep_cond_false ((List.range i).foldl unblockStep seqs)
      i s hX0get (by simp [hallX0])
    rw [hunfold, hstep, foldl_unblockStep_get_not_mem _ _ _ hnm]
    exact hX0get

/-- C8: a BLOCKED parent whose children (the sequences whose parent-link
points to it) have all reached FINISHED is moved to WAITING by the unblock
scan, with the newline-joined output texts of its finished children appended
to its prompt (children with empty output contribute nothing, an empty merge
appends nothing); while any child is unfinished no transition out of BLOCKED
occurs. -/
theorem blocked_parent_unblock_and_merge (seqs : List Seq) (i : Nat) (s : Seq)
    (hget : seqs[i]? = some s) (hb : s.status = SequenceStatus.BLOCKED)
    (hp : s.is_parent = true) :
    ((∀ c ∈ seqs, c.parent_seq_id = some s.seq_id →
        c.status = SequenceStatus.FINISHED) →
      (handle_unblock seqs)[i]? = some { s with
        status := SequenceStatus.WAITING,
        prompt := s.prompt
          ++ compute_merged_output (finishedChildren seqs s.seq_id) }) ∧
    ((∃ c ∈ seqs, c.parent_seq_id = some s.seq_id ∧
        c.status ≠ SequenceStatus.FINISHED) →
      (handle_unblock seqs)[i]? = some s) := by
  constructor
  · intro hall
    exact (handle_unblock_blocked_parent seqs i s hget hb hp).1
      ((allChildrenFinished_true_iff seqs s.seq_id).2 hall)
  · rintro ⟨c, hm, hpar, hnf⟩
    apply (handle_unblock_blocked_parent seqs i s hget hb hp).2
    cases hac : allChildrenFinished seqs s.seq_id
    · rfl
    · exact absurd ((allChildrenFinished_true_iff seqs s.seq_id).1 hac c hm hpar) hnf

/-- Witness for C8: a blocked parent with two finished children gets WAITING
status and the newline-joined child outputs appended to its prompt. -/
theorem blocked_parent_unblock_and_merge_witness :
    (handle_unblock [w8parent, w8child1, w8child2])[0]? = some { w8parent with
      status := SequenceStatus.WAITING,
      prompt := w8parent.prompt ++ compute_merged_output
        (finishedChildren [w8parent, w8child1, w8child2] w8parent.seq_id) } :=
  (blocked_parent_unblock_and_merge [w8parent, w8child1, w8child2] 0 w8parent
    (by decide) (by decide) (by decide)).1 (by decide)

/-- C10: a BLOCKED parent with no sequence pointing to it as parent is
immediately set to WAITING by the unblock scan — the all-children-finished
check is vacuously true over the empty child set — and nothing is appended to
its prompt, the merged output of the empty child list being empty. -/
theorem childless_blocked_parent_waits (seqs : List Seq) (i : Nat) (s : Seq)
    (hget : seqs[i]? = some s) (hb : s.status = SequenceStatus.BLOCKED)
    (hp : s.is_parent = true)
    (hnochild : ∀ c ∈ seqs, c.parent_seq_id ≠ some s.seq_id) :
    (handle_unblock seqs)[i]? = some { s with status := SequenceStatus.WAITING } ∧
    finishedChildren seqs s.seq_id = [] ∧
    compute_merged_output (finishedChildren seqs s.seq_id) = "" := by
  have hfc : finishedChildren seqs s.seq_id = [] := by
    rw [finishedChildren, List.filter_eq_nil_iff]
    intro c hm
    simp [hnochild c hm]
  have hmerged : compute_merged_output (finishedChildren seqs s.seq_id) = "" := by
    rw [hfc]
    rfl
  refine ⟨?_, hfc, hmerged⟩
  have h := (handle_unblock_blocked_parent seqs i s hget hb hp).1
    (by
      rw [allChildrenFinished_true_iff]
      intro c hm hpar
      exact absurd hpar (hnochild c hm))
  rw [hmerged] at h
  simpa using h

/-- Witness for C10: a lone childless blocked parent is set to WAITING with
its prompt untouched. -/
theorem childless_blocked_parent_waits_witness :
    (handle_unblock [w10seq])[0]?
      = some { w10seq with status := SequenceStatus.WAITING } ∧
    finishedChildren [w10seq] w10seq.seq_id = [] ∧
    compute_merged_output (finishedChildren [w10seq] w10seq.seq_id) = "" :=
  childless_blocked_parent_waits [w10seq] 0 w10seq
    (by decide) (by decide) (by decide) (by decide)

end VllmStream
